import Mathlib

/-!
Shallow embedding of the detection resolver of `package-manager-detector`
(`src/types.ts` together with the detect implementation file shipped with it).

Modelling conventions:
* absolute POSIX directory paths are lists of path components, `[]` being the
  filesystem root, so `path.dirname` is `List.dropLast`;
* the filesystem is a pure map from directory and filename to optional
  observable file content; `none` models "stat fails or not a regular file";
* of a file's content, detection only ever observes whether JSON parsing
  succeeds with a string `packageManager` field, so that is all the content
  carries (parse failure, an absent field and a non-string field all behave
  identically in the source: all yield `null`);
* `process.env.npm_config_user_agent` and `process.cwd()` are explicit
  parameters of `detect`/`detectSync`;
* the async and sync variants are embedded separately, each mirroring its own
  source text, as pure functions of the filesystem map;
* `null` and `undefined` results are both `none`: no caller of the embedded
  code distinguishes them.
-/

namespace PMD

/-- `AgentName` from `src/types.ts`: the coarse package-manager family. -/
inductive AgentName where
  | npm | yarn | pnpm | bun | deno
deriving DecidableEq, Repr

/-- `Agent` from `src/types.ts` (`yarn@berry` is `yarnBerry`, `pnpm@6` is `pnpm6`). -/
inductive Agent where
  | npm | yarn | yarnBerry | pnpm | pnpm6 | bun | deno
deriving DecidableEq, Repr

/-- The TypeScript upcast `AgentName <: Agent`, used by `{ name, agent: name }`. -/
def agentOfName : AgentName → Agent
  | .npm => .npm
  | .yarn => .yarn
  | .pnpm => .pnpm
  | .bun => .bun
  | .deno => .deno

/-- `DetectResult` from `src/types.ts`; `version := none` models an absent field. -/
structure DetectResult where
  name : AgentName
  agent : Agent
  version : Option String
deriving DecidableEq, Repr

/-- `DetectStrategy` from `src/types.ts`. -/
inductive DetectStrategy where
  | lockfile | packageManagerField | devEnginesField | installMetadata
deriving DecidableEq, Repr

/-- A directory: the components of an absolute POSIX path; `[]` is the root. -/
abbrev Dir := List String

/-- The `stopDir` option of `src/types.ts`: an absolute path or a predicate. -/
inductive StopDir where
  | path (p : Dir)
  | pred (f : Dir → Bool)

/-- The `onUnknown` option: `none` models an absent callback. -/
abbrev OnUnknownCb := Option (String → Option DetectResult)

/-- The `npm_config_user_agent` option the implementation destructures:
`none` is absent or falsy, `strictTrue` the literal `true`, `otherTruthy`
any other truthy value. -/
inductive UserAgentOpt where
  | strictTrue | otherTruthy
deriving DecidableEq, Repr

/-- `DetectOptions` from `src/types.ts`, plus the `npm_config_user_agent`
field the implementation reads; absent optional fields are `none`. -/
structure DetectOptions where
  cwd : Option Dir
  strategies : Option (List DetectStrategy)
  onUnknown : OnUnknownCb
  stopDir : Option StopDir
  npm_config_user_agent : Option UserAgentOpt

/-- Observable content of a file: `pmField = some s` exactly when the file
parses as JSON with a string `packageManager` field equal to `s`. -/
structure FileContent where
  pmField : Option String
deriving DecidableEq, Repr

/-- The filesystem: which regular files exist in which directory. -/
abbrev FS := Dir → String → Option FileContent

/-- Modelled from the spec: the Known-Agent Set `AGENTS` lives in
`constants.ts`, which is not under `src/`; per the spec (§3, §6) it is the
enumeration of `Agent` identities, consumed by the Specifier Parser's
passthrough rule. -/
def AGENTS : List String :=
  ["npm", "yarn", "yarn@berry", "pnpm", "pnpm@6", "bun", "deno"]

/-- Modelled from the spec: the Lockfile Table `LOCKS` lives in
`constants.ts`, which is not under `src/`; per the spec (§3) it is a fixed
mapping from lockfile filename to the `AgentName` it implies, iterated in
definition order. -/
def LOCKS : List (String × AgentName) :=
  [("bun.lock", .bun), ("bun.lockb", .bun), ("deno.lock", .deno),
   ("pnpm-lock.yaml", .pnpm), ("yarn.lock", .yarn),
   ("package-lock.json", .npm), ("npm-shrinkwrap.json", .npm)]

/-- `pm.replace(/^\^/, '')` at the character level: strip a single leading caret. -/
def stripCaretL : List Char → List Char
  | '^' :: t => t
  | cs => cs

/-- JavaScript `String.prototype.split` with a one-character separator, at the
character level: the maximal separator-free segments, in order, keeping empty
segments (`"a@@b".split('@')` is `["a", "", "b"]`, `"".split('@')` is `[""]`). -/
def splitOnChar (sep : Char) : List Char → List (List Char)
  | [] => [[]]
  | c :: cs =>
    match splitOnChar sep cs with
    | [] => [[]]
    | y :: ys => if c = sep then [] :: y :: ys else (c :: y) :: ys

/-- Whitespace skipped by `Number.parseInt` (the ASCII cases). -/
def isJsSpace (c : Char) : Bool :=
  c == ' ' || c == '\t' || c == '\n' || c == '\r'

/-- Value of a run of decimal digits. -/
def digitsVal (ds : List Char) : Nat :=
  ds.foldl (fun acc c => acc * 10 + (c.toNat - '0'.toNat)) 0

/-- Hexadecimal digit predicate for `Number.parseInt`'s `0x` radix detection. -/
def isHexDigitChar (c : Char) : Bool :=
  c.isDigit || (decide ('a' ≤ c) && decide (c ≤ 'f')) || (decide ('A' ≤ c) && decide (c ≤ 'F'))

/-- Value of one hexadecimal digit. -/
def hexDigitVal (c : Char) : Nat :=
  if c.isDigit then c.toNat - '0'.toNat
  else if 'a' ≤ c then c.toNat - 'a'.toNat + 10
  else c.toNat - 'A'.toNat + 10

/-- `Number.parseInt` on a string: skip whitespace, optional sign, `0x`/`0X`
radix detection, then the longest run of digits; `none` models `NaN`. -/
def jsParseIntCore (s : String) : Option Int :=
  let cs := s.data.dropWhile isJsSpace
  let sign : Int := match cs with | '-' :: _ => -1 | _ => 1
  let cs1 := match cs with | '-' :: t => t | '+' :: t => t | _ => cs
  match cs1 with
  | '0' :: x :: t =>
    if x = 'x' ∨ x = 'X' then
      let ds := t.takeWhile isHexDigitChar
      if ds.isEmpty then none
      else some (sign * (ds.foldl (fun acc c => acc * 16 + hexDigitVal c) 0 : Nat))
    else
      let ds := cs1.takeWhile Char.isDigit
      if ds.isEmpty then none else some (sign * digitsVal ds)
  | _ =>
    let ds := cs1.takeWhile Char.isDigit
    if ds.isEmpty then none else some (sign * digitsVal ds)

/-- `Number.parseInt(ver)` where `ver` may be `undefined` (no `@` in the
specifier): `parseInt(undefined)` is `NaN`. -/
def jsParseInt : Option String → Option Int
  | none => none
  | some s => jsParseIntCore s

/-- `Number.parseInt(ver) > k`; the `NaN` comparison is false. -/
def parseIntGT (v : Option String) (k : Int) : Bool :=
  match jsParseInt v with
  | some n => decide (k < n)
  | none => false

/-- `Number.parseInt(ver) < k`; the `NaN` comparison is false. -/
def parseIntLT (v : Option String) (k : Int) : Bool :=
  match jsParseInt v with
  | some n => decide (n < k)
  | none => false

/-- The `name` of `const [name, ver] = pm.replace(/^\^/, '').split('@')`. -/
def nameOf (pm : String) : String :=
  ⟨(splitOnChar '@' (stripCaretL pm.data)).headD []⟩

/-- The `ver` of the same destructuring; `none` models `undefined` (no `@`). -/
def verOf (pm : String) : Option String :=
  ((splitOnChar '@' (stripCaretL pm.data))[1]?).map String.mk

/-- Decoding behind the unchecked TypeScript cast `name as Agent`. -/
def agentFromString : String → Option Agent
  | "npm" => some .npm
  | "yarn" => some .yarn
  | "yarn@berry" => some .yarnBerry
  | "pnpm" => some .pnpm
  | "pnpm@6" => some .pnpm6
  | "bun" => some .bun
  | "deno" => some .deno
  | _ => none

/-- Decoding behind the unchecked use of the split `name` as an `AgentName`. -/
def agentNameFromString : String → Option AgentName
  | "npm" => some .npm
  | "yarn" => some .yarn
  | "pnpm" => some .pnpm
  | "bun" => some .bun
  | "deno" => some .deno
  | _ => none

/-- `processUserAgent` from the detect implementation: the Specifier Parser.
`if (!pm) return null`; strip one caret and split on `@`; berry-yarn rule,
then legacy-pnpm rule, then known-agent passthrough, then `onUnknown`. -/
def processUserAgent (pm : String) (onUnknown : OnUnknownCb) : Option DetectResult :=
  if pm = "" then none
  else if nameOf pm = "yarn" ∧ parseIntGT (verOf pm) 1 then
    some ⟨.yarn, .yarnBerry, some "berry"⟩
  else if nameOf pm = "pnpm" ∧ parseIntLT (verOf pm) 7 then
    some ⟨.pnpm, .pnpm6, verOf pm⟩
  else if AGENTS.contains (nameOf pm) then
    match agentNameFromString (nameOf pm), agentFromString (nameOf pm) with
    | some n, some a => some ⟨n, a, verOf pm⟩
    | _, _ => none
  else
    match onUnknown with
    | some f => f pm
    | none => none

/-- The walker loop `while (directory !== root) { yield directory;
directory = path.dirname(directory) }`, with fuel `d.length`, which the loop
consumes exactly (each `dirname` removes exactly one component). -/
def lookupFuel : Nat → Dir → List Dir
  | 0, _ => []
  | _ + 1, [] => []
  | fuel + 1, d => d :: lookupFuel fuel d.dropLast

/-- `lookup` from the detect implementation: the ascending candidate
directories from the (resolved, absolute) `cwd` up to, and excluding, the
filesystem root. -/
def lookup (d : Dir) : List Dir :=
  lookupFuel d.length d

/-- `fileExists` (async variant): `fsPromises.stat` succeeds on a regular file. -/
def fileExists (fs : FS) (d : Dir) (f : String) : Bool :=
  (fs d f).isSome

/-- `fileExistsSync`: `fs.statSync` succeeds on a regular file. -/
def fileExistsSync (fs : FS) (d : Dir) (f : String) : Bool :=
  (fs d f).isSome

/-- `handlePackageManager`: read and JSON-parse the file; on a string
`packageManager` field delegate to `processUserAgent`; any failure is caught
and yields `null`. Shared by the async and sync variants in the source. -/
def handlePackageManager (fs : FS) (d : Dir) (f : String) (onUnknown : OnUnknownCb) :
    Option DetectResult :=
  match fs d f with
  | some file =>
    match file.pmField with
    | some pm => processUserAgent pm onUnknown
    | none => none
  | none => none

/-- `parsePackageJson` (async): existence check, then `handlePackageManager`;
the source's `!filepath` guard is vacuous since the joined path is never empty. -/
def parsePackageJson (fs : FS) (d : Dir) (f : String) (onUnknown : OnUnknownCb) :
    Option DetectResult :=
  if fileExists fs d f then handlePackageManager fs d f onUnknown else none

/-- `parsePackageJsonSync`: the blocking twin of `parsePackageJson`. -/
def parsePackageJsonSync (fs : FS) (d : Dir) (f : String) (onUnknown : OnUnknownCb) :
    Option DetectResult :=
  if fileExistsSync fs d f then handlePackageManager fs d f onUnknown else none

/-- The lockfile loop of `detect`: the first entry of the table whose filename
exists in `directory`, in table order. -/
def findLock (fs : FS) (d : Dir) : List (String × AgentName) → Option AgentName
  | [] => none
  | (lock, name) :: rest =>
    if fileExists fs d lock then some name else findLock fs d rest

/-- The lockfile loop of `detectSync`. -/
def findLockSync (fs : FS) (d : Dir) : List (String × AgentName) → Option AgentName
  | [] => none
  | (lock, name) :: rest =>
    if fileExistsSync fs d lock then some name else findLockSync fs d rest

/-- The body of `detect`'s per-directory traversal step: on a lockfile hit,
return the sibling manifest's result if any, else the bare lockfile agent;
otherwise the manifest's result alone. -/
def detectStep (fs : FS) (onUnknown : OnUnknownCb) (d : Dir) : Option DetectResult :=
  match findLock fs d LOCKS with
  | some name =>
    match parsePackageJson fs d "package.json" onUnknown with
    | some result => some result
    | none => some ⟨name, agentOfName name, none⟩
  | none => parsePackageJson fs d "package.json" onUnknown

/-- The body of `detectSync`'s per-directory traversal step. -/
def detectStepSync (fs : FS) (onUnknown : OnUnknownCb) (d : Dir) : Option DetectResult :=
  match findLockSync fs d LOCKS with
  | some name =>
    match parsePackageJsonSync fs d "package.json" onUnknown with
    | some result => some result
    | none => some ⟨name, agentOfName name, none⟩
  | none => parsePackageJsonSync fs d "package.json" onUnknown

/-- `detect`'s `for (const directory of lookup(cwd))` loop. -/
def detectDirs (fs : FS) (onUnknown : OnUnknownCb) : List Dir → Option DetectResult
  | [] => none
  | d :: rest =>
    match detectStep fs onUnknown d with
    | some result => some result
    | none => detectDirs fs onUnknown rest

/-- `detectSync`'s traversal loop. -/
def detectDirsSync (fs : FS) (onUnknown : OnUnknownCb) : List Dir → Option DetectResult
  | [] => none
  | d :: rest =>
    match detectStepSync fs onUnknown d with
    | some result => some result
    | none => detectDirsSync fs onUnknown rest

/-- JS truthiness of `process.env.npm_config_user_agent` (empty string is falsy). -/
def truthyEnv : Option String → Bool
  | none => false
  | some s => !(s == "")

/-- `detect` (async) from the implementation. `env` models
`process.env.npm_config_user_agent` and `procCwd` models `process.cwd()`,
the default for an absent `options.cwd`. Note the implementation reads only
`cwd`, `onUnknown` and `npm_config_user_agent` from the options. -/
def detect (options : DetectOptions) (env : Option String) (fs : FS) (procCwd : Dir) :
    Option DetectResult :=
  match options.npm_config_user_agent with
  | some .strictTrue =>
    if truthyEnv env then processUserAgent (env.getD "") options.onUnknown else none
  | some .otherTruthy =>
    if truthyEnv env then
      match processUserAgent (env.getD "") none with
      | some result => some result
      | none => detectDirs fs options.onUnknown (lookup (options.cwd.getD procCwd))
    else detectDirs fs options.onUnknown (lookup (options.cwd.getD procCwd))
  | none => detectDirs fs options.onUnknown (lookup (options.cwd.getD procCwd))

/-- `detectSync` from the implementation: the blocking twin of `detect`. -/
def detectSync (options : DetectOptions) (env : Option String) (fs : FS) (procCwd : Dir) :
    Option DetectResult :=
  match options.npm_config_user_agent with
  | some .strictTrue =>
    if truthyEnv env then processUserAgent (env.getD "") options.onUnknown else none
  | some .otherTruthy =>
    if truthyEnv env then
      match processUserAgent (env.getD "") none with
      | some result => some result
      | none => detectDirsSync fs options.onUnknown (lookup (options.cwd.getD procCwd))
    else detectDirsSync fs options.onUnknown (lookup (options.cwd.getD procCwd))
  | none => detectDirsSync fs options.onUnknown (lookup (options.cwd.getD procCwd))

/-- Filenames whose existence the lockfile loop consults in `d`: every table
key up to and including the first hit (the loop returns at the first hit). -/
def lockProbes (fs : FS) (d : Dir) : List (String × AgentName) → List String
  | [] => []
  | (lock, _) :: rest =>
    if fileExists fs d lock then [lock] else lock :: lockProbes fs d rest

/-- All paths whose existence or content `detectStep` consults in `d`:
the probed lockfile names, then the sibling `package.json` (which both
branches of the step consult). -/
def stepProbes (fs : FS) (d : Dir) : List (Dir × String) :=
  (lockProbes fs d LOCKS).map (fun f => (d, f)) ++ [(d, "package.json")]

/-- The traversal loop instrumented with the list of consulted paths. -/
def detectDirsTrace (fs : FS) (onUnknown : OnUnknownCb) :
    List Dir → Option DetectResult × List (Dir × String)
  | [] => (none, [])
  | d :: rest =>
    match detectStep fs onUnknown d with
    | some result => (some result, stepProbes fs d)
    | none =>
      let p := detectDirsTrace fs onUnknown rest
      (p.1, stepProbes fs d ++ p.2)

/-! ### Helper lemmas -/

lemma findLockSync_eq (fs : FS) (d : Dir) (l : List (String × AgentName)) :
    findLockSync fs d l = findLock fs d l := by
  induction l with
  | nil => rfl
  | cons p rest ih =>
    obtain ⟨lock, name⟩ := p
    simp [findLockSync, findLock, fileExistsSync, fileExists, ih]

lemma parsePackageJsonSync_eq (fs : FS) (d : Dir) (f : String) (u : OnUnknownCb) :
    parsePackageJsonSync fs d f u = parsePackageJson fs d f u := rfl

lemma detectStepSync_eq (fs : FS) (u : OnUnknownCb) (d : Dir) :
    detectStepSync fs u d = detectStep fs u d := by
  simp [detectStepSync, detectStep, findLockSync_eq, parsePackageJsonSync_eq]

lemma detectDirsSync_eq (fs : FS) (u : OnUnknownCb) (dirs : List Dir) :
    detectDirsSync fs u dirs = detectDirs fs u dirs := by
  induction dirs with
  | nil => rfl
  | cons d rest ih => simp [detectDirsSync, detectDirs, detectStepSync_eq, ih]

lemma detect_eq_detectSync_aux (o : DetectOptions) (e : Option String) (fs : FS) (p : Dir) :
    detect o e fs p = detectSync o e fs p := by
  obtain ⟨cwd, strat, onU, stop, ua⟩ := o
  cases ua with
  | none => simp [detect, detectSync, detectDirsSync_eq]
  | some m =>
    cases m with
    | strictTrue => rfl
    | otherTruthy =>
      simp only [detect, detectSync]
      split
      · split <;> simp [detectDirsSync_eq]
      · simp [detectDirsSync_eq]

lemma lookup_ne_nil {d : Dir} (h : d ≠ []) :
    lookup d = d :: lookup d.dropLast := by
  cases d with
  | nil => exact absurd rfl h
  | cons a t =>
    have h1 : ((a :: t).dropLast).length = t.length := by simp
    show lookupFuel (t.length + 1) (a :: t) =
      (a :: t) :: lookupFuel ((a :: t).dropLast).length ((a :: t).dropLast)
    rw [h1]
    rfl

lemma stepProbes_fst (fs : FS) (d : Dir) :
    ∀ pr ∈ stepProbes fs d, pr.1 = d := by
  intro pr hpr
  rcases List.mem_append.mp hpr with h | h
  · rcases List.mem_map.mp h with ⟨f, _, rfl⟩
    rfl
  · rw [List.mem_singleton.mp h]

lemma findLock_of_unique (fs : FS) (d : Dir) (L : String) (A : AgentName) :
    ∀ l : List (String × AgentName), (l.map Prod.fst).Nodup →
      (L, A) ∈ l → fileExists fs d L = true →
      (∀ p ∈ l, fileExists fs d p.1 = true → p.1 = L) →
      findLock fs d l = some A := by
  intro l
  induction l with
  | nil => intro _ hmem _ _; cases hmem
  | cons hd tl ih =>
    intro hnd hmem hex huniq
    obtain ⟨L0, A0⟩ := hd
    simp only [findLock]
    by_cases h0 : fileExists fs d L0 = true
    · rw [if_pos h0]
      have hL0 : L0 = L := huniq (L0, A0) (List.mem_cons_self _ _) h0
      subst hL0
      rcases List.mem_cons.mp hmem with heq | htl
      · injection heq with h1 h2
        rw [h2]
      · exfalso
        have : L0 ∈ tl.map Prod.fst := List.mem_map.mpr ⟨(L0, A), htl, rfl⟩
        exact (List.nodup_cons.mp (by simpa using hnd)).1 this
    · rw [if_neg h0]
      have hne : (L, A) ≠ (L0, A0) := by
        intro heq
        injection heq with h1 h2
        exact h0 (h1 ▸ hex)
      have htl : (L, A) ∈ tl := by
        rcases List.mem_cons.mp hmem with h | h
        · exact absurd h hne
        · exact h
      exact ih (List.nodup_cons.mp (by simpa using hnd)).2 htl hex
        (fun p hp hf => huniq p (List.mem_cons_of_mem _ hp) hf)

/-! ### Fixtures used by concrete instances -/

/-- A filesystem with a pnpm lockfile at `/a/b` only and a manifest with a
`packageManager` field at `/a`: the spec's proximity-precedence scenario. -/
def fsProx : FS := fun d f =>
  if d = ["a", "b"] ∧ f = "pnpm-lock.yaml" then some ⟨none⟩
  else if d = ["a"] ∧ f = "package.json" then some ⟨some "npm@10.1.0"⟩
  else none

/-- A filesystem with a pnpm lockfile at `/a` and nothing else. -/
def fsLockOnlyA : FS := fun d f =>
  if d = ["a"] ∧ f = "pnpm-lock.yaml" then some ⟨none⟩ else none

/-- A filesystem with a yarn lockfile at `/a` and nothing else. -/
def fsYarnLockA : FS := fun d f =>
  if d = ["a"] ∧ f = "yarn.lock" then some ⟨none⟩ else none

/-- A filesystem with a yarn lockfile at `/w` and nothing else. -/
def fsYarnLockW : FS := fun d f =>
  if d = ["w"] ∧ f = "yarn.lock" then some ⟨none⟩ else none

/-! ### Claims -/

/-- Claim C1: once some visited directory yields a non-null result from the
per-directory step, `detect` and `detectSync` return that result, and every
filesystem path consulted by the traversal lies in an already-visited
directory or in the yielding directory itself — never in an ancestor
(`rest`): a lockfile-derived result closer to `cwd` wins even when a farther
ancestor holds an explicit `packageManager` field. -/
theorem c1_first_hit_short_circuits
    (opts : DetectOptions) (env : Option String) (fs : FS) (procCwd : Dir)
    (ds : List Dir) (d : Dir) (rest : List Dir) (r : DetectResult)
    (hua : opts.npm_config_user_agent = none)
    (hlk : lookup (opts.cwd.getD procCwd) = ds ++ d :: rest)
    (hds : ∀ e ∈ ds, detectStep fs opts.onUnknown e = none)
    (hd : detectStep fs opts.onUnknown d = some r) :
    detect opts env fs procCwd = some r ∧
    detectSync opts env fs procCwd = some r ∧
    ∀ pr ∈ (detectDirsTrace fs opts.onUnknown (lookup (opts.cwd.getD procCwd))).2,
      pr.1 ∈ ds ∨ pr.1 = d := by
  have key : ∀ l : List Dir, (∀ e ∈ l, detectStep fs opts.onUnknown e = none) →
      detectDirs fs opts.onUnknown (l ++ d :: rest) = some r ∧
      ∀ pr ∈ (detectDirsTrace fs opts.onUnknown (l ++ d :: rest)).2,
        pr.1 ∈ l ∨ pr.1 = d := by
    intro l
    induction l with
    | nil =>
      intro _
      refine ⟨by simp [detectDirs, hd], ?_⟩
      intro pr hpr
      simp only [List.nil_append, detectDirsTrace, hd] at hpr
      exact Or.inr (stepProbes_fst fs d pr hpr)
    | cons a l ih =>
      intro hall
      have ha := hall a (List.mem_cons_self _ _)
      have ih' := ih (fun e he => hall e (List.mem_cons_of_mem _ he))
      refine ⟨by simp [detectDirs, ha, ih'.1], ?_⟩
      intro pr hpr
      simp only [List.cons_append, detectDirsTrace, ha] at hpr
      rcases List.mem_append.mp hpr with h | h
      · exact Or.inl (by rw [stepProbes_fst fs a pr h]; exact List.mem_cons_self _ _)
      · rcases ih'.2 pr h with h' | h'
        · exact Or.inl (List.mem_cons_of_mem _ h')
        · exact Or.inr h'
  have hmain := key ds hds
  have hdet : detect opts env fs procCwd = some r := by
    simp only [detect, hua]
    rw [hlk]
    exact hmain.1
  refine ⟨hdet, ?_, ?_⟩
  · rw [← detect_eq_detectSync_aux]
    exact hdet
  · rw [hlk]
    exact hmain.2

/-- Witness for C1: the proximity scenario of the spec, with `/a/b` holding a
lockfile only and `/a` holding a `packageManager` manifest. -/
theorem c1_witness :
    detect ⟨some ["a", "b"], none, none, none, none⟩ none fsProx [] =
      some ⟨.pnpm, .pnpm, none⟩ ∧
    detectSync ⟨some ["a", "b"], none, none, none, none⟩ none fsProx [] =
      some ⟨.pnpm, .pnpm, none⟩ ∧
    ∀ pr ∈ (detectDirsTrace fsProx none (lookup ["a", "b"])).2,
      pr.1 ∈ ([] : List Dir) ∨ pr.1 = ["a", "b"] :=
  c1_first_hit_short_circuits ⟨some ["a", "b"], none, none, none, none⟩ none fsProx []
    [] ["a", "b"] [["a"]] ⟨.pnpm, .pnpm, none⟩
    rfl (by decide) (by simp) (by decide)

/-- Claim C2: in a non-root directory whose only lockfile is `L`, with the
Lockfile Table mapping `L` to `A`, detection started there returns the sibling
manifest's result when that is non-null, and otherwise exactly
`{name := A, agent := A}` with no version field. -/
theorem c2_lockfile_directory
    (opts : DetectOptions) (env : Option String) (fs : FS) (procCwd : Dir)
    (d : Dir) (L : String) (A : AgentName)
    (hua : opts.npm_config_user_agent = none)
    (hcwd : opts.cwd = some d)
    (hroot : d ≠ [])
    (hLA : (L, A) ∈ LOCKS)
    (hex : fileExists fs d L = true)
    (huniq : ∀ p ∈ LOCKS, fileExists fs d p.1 = true → p.1 = L) :
    (∀ res, parsePackageJson fs d "package.json" opts.onUnknown = some res →
        detect opts env fs procCwd = some res ∧
        detectSync opts env fs procCwd = some res) ∧
    (parsePackageJson fs d "package.json" opts.onUnknown = none →
        detect opts env fs procCwd = some ⟨A, agentOfName A, none⟩ ∧
        detectSync opts env fs procCwd = some ⟨A, agentOfName A, none⟩) := by
  have hfind : findLock fs d LOCKS = some A :=
    findLock_of_unique fs d L A LOCKS (by decide) hLA hex huniq
  have hdd : detect opts env fs procCwd = detectDirs fs opts.onUnknown (lookup d) := by
    simp [detect, hua, hcwd]
  constructor
  · intro res hres
    have hstep : detectStep fs opts.onUnknown d = some res := by
      simp [detectStep, hfind, hres]
    have hdet : detect opts env fs procCwd = some res := by
      rw [hdd, lookup_ne_nil hroot]
      simp [detectDirs, hstep]
    exact ⟨hdet, by rw [← detect_eq_detectSync_aux]; exact hdet⟩
  · intro hres
    have hstep : detectStep fs opts.onUnknown d = some ⟨A, agentOfName A, none⟩ := by
      simp [detectStep, hfind, hres]
    have hdet : detect opts env fs procCwd = some ⟨A, agentOfName A, none⟩ := by
      rw [hdd, lookup_ne_nil hroot]
      simp [detectDirs, hstep]
    exact ⟨hdet, by rw [← detect_eq_detectSync_aux]; exact hdet⟩

/-- Witness for C2: a directory containing only `yarn.lock` and no manifest
yields the bare `{name := yarn, agent := yarn}`. -/
theorem c2_witness :
    detect ⟨some ["w"], none, none, none, none⟩ none fsYarnLockW [] =
      some ⟨.yarn, .yarn, none⟩ ∧
    detectSync ⟨some ["w"], none, none, none, none⟩ none fsYarnLockW [] =
      some ⟨.yarn, .yarn, none⟩ :=
  (c2_lockfile_directory ⟨some ["w"], none, none, none, none⟩ none fsYarnLockW []
      ["w"] "yarn.lock" .yarn
      rfl rfl (by decide) (by decide) (by decide) (by decide)).2 (by decide)

/-- Claim C3 (code bug): the implementation never reads `options.strategies`.
With `strategies = [packageManager-field]` only, in a directory holding a
pnpm lockfile and no manifest at all, `detect` still returns the lockfile
result, although the configured strategy list would yield nothing. -/
theorem c3_strategies_option_ignored :
    detect ⟨some ["a"], some [.packageManagerField], none, none, none⟩ none
      fsLockOnlyA [] = some ⟨.pnpm, .pnpm, none⟩ := by decide

/-- Claim C4 (code bug): the walker ignores `stopDir` entirely. Started at
`/a/b/c` with `stopDir = /a`, it yields `/a` as a candidate, and `detect`
inspects `/a` — here even returning a result found exactly there. (The root
`[]` is indeed never yielded, but the `stopDir` boundary does not exist.) -/
theorem c4_stopdir_option_ignored :
    lookup ["a", "b", "c"] = [["a", "b", "c"], ["a", "b"], ["a"]] ∧
    detect ⟨some ["a", "b", "c"], none, none, some (.path ["a"]), none⟩ none
      fsYarnLockA [] = some ⟨.yarn, .yarn, none⟩ := by decide

/-- Counterexample to Claim C5: with the fast path requested
(`npm_config_user_agent = true`), an environment value whose parse result is
null (`"foo@1.0.0"`, no `onUnknown`), and a lockfile in `cwd`, `detect`
returns `null` — it does not fall through to the directory traversal, which
would have returned the lockfile result. -/
theorem c5_counterexample :
    detect ⟨some ["a"], none, none, none, some .strictTrue⟩ (some "foo@1.0.0")
      fsLockOnlyA [] = none ∧
    detectDirs fsLockOnlyA none (lookup ["a"]) = some ⟨.pnpm, .pnpm, none⟩ := by decide

/-- Claim C5 as amended: when the fast path is requested with the literal
`true`, `detect` (and `detectSync`) returns exactly the Specifier Parser's
result on the environment value when one exists — null included, with no
fall-through to traversal — and `null` when no (truthy) environment value
exists; in both cases no directory is visited (the result does not depend on
the filesystem). -/
theorem c5_fastpath_strict_amended
    (opts : DetectOptions) (env : Option String) (fs : FS) (procCwd : Dir)
    (h : opts.npm_config_user_agent = some .strictTrue) :
    detect opts env fs procCwd =
      (if truthyEnv env = true then processUserAgent (env.getD "") opts.onUnknown
       else none) ∧
    detectSync opts env fs procCwd =
      (if truthyEnv env = true then processUserAgent (env.getD "") opts.onUnknown
       else none) := by
  constructor <;> simp only [detect, detectSync, h]

/-- Witness for C5 (amended): fast path with an existing environment
specifier returns its parse, on an empty filesystem. -/
theorem c5_witness :
    detect ⟨none, none, none, none, some .strictTrue⟩ (some "npm@10.1.0")
      (fun _ _ => none) [] = some ⟨.npm, .npm, some "10.1.0"⟩ ∧
    detectSync ⟨none, none, none, none, some .strictTrue⟩ (some "npm@10.1.0")
      (fun _ _ => none) [] = some ⟨.npm, .npm, some "10.1.0"⟩ := by
  have h := c5_fastpath_strict_amended ⟨none, none, none, none, some .strictTrue⟩
    (some "npm@10.1.0") (fun _ _ => none) [] rfl
  exact ⟨h.1.trans (by decide), h.2.trans (by decide)⟩

/-- Claim C6: a specifier whose name part is `yarn` and whose version part
has a leading integer greater than 1 (the caret, if any, is stripped before
the split) parses to `{name := yarn, agent := yarn@berry, version := "berry"}`
— the version field is the literal `"berry"`, never the specifier's own
version number. -/
theorem c6_yarn_berry (pm : String) (u : OnUnknownCb)
    (hname : nameOf pm = "yarn")
    (hver : ∃ n : Int, jsParseInt (verOf pm) = some n ∧ 1 < n) :
    processUserAgent pm u = some ⟨.yarn, .yarnBerry, some "berry"⟩ := by
  obtain ⟨n, hn, h1⟩ := hver
  have hpm : pm ≠ "" := by
    intro h
    subst h
    exact absurd hname (by decide)
  have hgt : parseIntGT (verOf pm) 1 = true := by
    simp only [parseIntGT, hn, decide_eq_true_eq]
    exact h1
  simp [processUserAgent, hpm, hname, hgt]

/-- Witness for C6: `"^yarn@3.2.0"` (caret included) parses to the berry
agent with literal version `"berry"`, not `"3.2.0"`. -/
theorem c6_witness :
    processUserAgent "^yarn@3.2.0" none = some ⟨.yarn, .yarnBerry, some "berry"⟩ :=
  c6_yarn_berry "^yarn@3.2.0" none (by decide) ⟨3, by decide, by decide⟩

/-- Claim C7: a specifier whose name part is `pnpm` parses to
`{name := pnpm, agent := pnpm@6}` with the version preserved verbatim when
the version's leading integer is less than 7, and falls closed to the
known-agent passthrough (agent `pnpm`, version still passed through) when
the version segment is missing, empty, or non-numeric (`parseInt` is `NaN`). -/
theorem c7_pnpm_rules (pm : String) (u : OnUnknownCb)
    (hname : nameOf pm = "pnpm") :
    ((∃ n : Int, jsParseInt (verOf pm) = some n ∧ n < 7) →
        processUserAgent pm u = some ⟨.pnpm, .pnpm6, verOf pm⟩) ∧
    (jsParseInt (verOf pm) = none →
        processUserAgent pm u = some ⟨.pnpm, .pnpm, verOf pm⟩) := by
  have hpm : pm ≠ "" := by
    intro h
    subst h
    exact absurd hname (by decide)
  have hny : ¬ nameOf pm = "yarn" := by
    rw [hname]
    decide
  constructor
  · rintro ⟨n, hn, h7⟩
    have hlt : parseIntLT (verOf pm) 7 = true := by
      simp only [parseIntLT, hn, decide_eq_true_eq]
      exact h7
    simp [processUserAgent, hpm, hny, hname, hlt]
  · intro hn
    have hlt : parseIntLT (verOf pm) 7 = false := by
      simp [parseIntLT, hn]
    have hincl : ("pnpm" : String) ∈ AGENTS := by decide
    have h1 : agentNameFromString "pnpm" = some .pnpm := by decide
    have h2 : agentFromString "pnpm" = some .pnpm := by decide
    simp [processUserAgent, hpm, hny, hname, hlt, hincl, h1, h2]

/-- Witness for C7: `"pnpm@6.14.0"` keeps its version under agent `pnpm@6`;
the empty-version `"pnpm@"` falls closed to the passthrough agent `pnpm`. -/
theorem c7_witness :
    processUserAgent "pnpm@6.14.0" none = some ⟨.pnpm, .pnpm6, some "6.14.0"⟩ ∧
    processUserAgent "pnpm@" none = some ⟨.pnpm, .pnpm, some ""⟩ := by
  constructor
  · exact ((c7_pnpm_rules "pnpm@6.14.0" none (by decide)).1
      ⟨6, by decide, by decide⟩).trans (by decide)
  · exact ((c7_pnpm_rules "pnpm@" none (by decide)).2 (by decide)).trans (by decide)

/-- Counterexample to Claim C8: for the empty specifier — whose name part
`""` is not in the known-agent set — the parser returns `null` without
consulting the callback, even when the callback would return a result, so
the outcome is not "exactly the callback's return value". -/
theorem c8_counterexample :
    processUserAgent "" (some fun _ => some ⟨.npm, .npm, none⟩) = none ∧
    AGENTS.contains (nameOf "") = false := by decide

/-- Claim C8 as amended: for every non-empty specifier whose name part is
not in the known-agent set, the parser never fabricates a result: the raw
specifier string is passed verbatim to the `onUnknown` callback and the
outcome is exactly the callback's return value, a nullish return or an
absent callback becoming `null`. (The empty specifier alone short-circuits
to `null` without consulting the callback.) -/
theorem c8_unknown_goes_to_callback (pm : String) (u : OnUnknownCb)
    (hpm : pm ≠ "")
    (hn : AGENTS.contains (nameOf pm) = false) :
    processUserAgent pm u = (match u with | some f => f pm | none => none) := by
  have hny : ¬ nameOf pm = "yarn" := by
    intro h
    rw [h] at hn
    exact absurd hn (by decide)
  have hnp : ¬ nameOf pm = "pnpm" := by
    intro h
    rw [h] at hn
    exact absurd hn (by decide)
  have hnm : nameOf pm ∉ AGENTS := by simpa using hn
  simp [processUserAgent, hpm, hny, hnp, hnm]

/-- Witness for C8 (amended): `"foo@1.0.0"` yields `null` with no callback,
and yields exactly the callback's value when one is supplied. -/
theorem c8_witness :
    processUserAgent "foo@1.0.0" none = none ∧
    processUserAgent "foo@1.0.0" (some fun _ => some ⟨.bun, .bun, none⟩) =
      some ⟨.bun, .bun, none⟩ := by
  refine ⟨?_, ?_⟩
  · exact c8_unknown_goes_to_callback "foo@1.0.0" none (by decide) (by decide)
  · exact c8_unknown_goes_to_callback "foo@1.0.0"
      (some fun _ => some ⟨.bun, .bun, none⟩) (by decide) (by decide)

/-- Claim C9: for every options value, environment value and filesystem
state, the non-blocking `detect` and the blocking `detectSync` return
structurally identical results. -/
theorem c9_detect_eq_detectSync
    (o : DetectOptions) (e : Option String) (fs : FS) (p : Dir) :
    detect o e fs p = detectSync o e fs p :=
  detect_eq_detectSync_aux o e fs p

end PMD
